import Mathlib

/-!
Shallow embedding of the `Plugin` class of webpack-subresource-integrity
(the single source file available for this repository).

JavaScript `Map<string, string>` objects are embedded as association lists
`List (String × String)` with first-match lookup; `Map.set` replaces the
value of the first matching key in place (keys are unique in every state the
code builds, since all states arise from `mapSet` starting at `[]`), and
`Map.delete` removes the key.  Asset sources (`Buffer`/string content) are
embedded as `String`.  The digest function `computeIntegrity` and the path
helpers live in the repository's `util` module, which is not part of the
available sources; they enter as explicit function parameters, so every
theorem below holds for all digest functions.  Reporter warnings and the
webpack `assetInfo` metadata update are external effects with no bearing on
the embedded state and are not modelled.
-/

namespace WSI

/-- First-match lookup in an association list, JS `Map.get`. -/
def mapGet? : List (String × String) → String → Option String
  | [], _ => none
  | (k, v) :: rest, key => if k = key then some v else mapGet? rest key

/-- JS `Map.has`. -/
def mapHas (m : List (String × String)) (key : String) : Bool :=
  (mapGet? m key).isSome

/-- JS `Map.set`: replace the value of an existing key in place, else append. -/
def mapSet : List (String × String) → String → String → List (String × String)
  | [], k, v => [(k, v)]
  | (k', v') :: rest, k, v =>
      if k' = k then (k', v) :: rest else (k', v') :: mapSet rest k v

/-- JS `Map.delete`: remove the entry for a key (keys are unique in every
state the plugin builds, so removing all occurrences coincides with
removing the one occurrence). -/
def mapDelete (m : List (String × String)) (key : String) : List (String × String) :=
  m.filter (fun p => p.1 ≠ key)

theorem mapGet_set (m : List (String × String)) (k v q : String) :
    mapGet? (mapSet m k v) q = if q = k then some v else mapGet? m q := by
  induction m with
  | nil =>
    by_cases h : q = k
    · subst h; simp [mapSet, mapGet?]
    · simp [mapSet, mapGet?, h, Ne.symm h]
  | cons p rest ih =>
    obtain ⟨k', v'⟩ := p
    by_cases hk : k' = k
    · subst hk
      by_cases hq : q = k'
      · subst hq; simp [mapSet, mapGet?]
      · simp [mapSet, mapGet?, hq, Ne.symm hq]
    · by_cases hq : q = k'
      · subst hq; simp [mapSet, mapGet?, hk, Ne.symm hk]
      · simp [mapSet, mapGet?, hk, hq, Ne.symm hq, ih]

theorem mapGet_delete (m : List (String × String)) (k q : String) :
    mapGet? (mapDelete m k) q = if q = k then none else mapGet? m q := by
  induction m with
  | nil => simp [mapDelete, mapGet?]
  | cons p rest ih =>
    obtain ⟨k', v'⟩ := p
    have hcons : mapDelete ((k', v') :: rest) k =
        if k' = k then mapDelete rest k else (k', v') :: mapDelete rest k := by
      by_cases hk : k' = k <;> simp [mapDelete, hk]
    rw [hcons]
    by_cases hk : k' = k
    · rw [if_pos hk]
      subst hk
      rw [ih]
      by_cases hq : q = k'
      · subst hq; simp
      · simp [mapGet?, hq, Ne.symm hq]
    · rw [if_neg hk]
      by_cases hq : q = k'
      · subst hq; simp [mapGet?, hk, Ne.symm hk]
      · simp [mapGet?, Ne.symm hq, ih]

theorem mapHas_iff (m : List (String × String)) (k : String) :
    mapHas m k = true ↔ ∃ v, mapGet? m k = some v := by
  simp [mapHas, Option.isSome_iff_exists]

/-- The mutable per-compilation state of the `Plugin` class that the claims
are about: the forward asset-integrity map, its inverse, and the
chunk-id → integrity table. -/
structure PluginState where
  assetIntegrity : List (String × String)
  inverseAssetIntegrity : List (String × String)
  hashByChunkId : List (String × String)
deriving DecidableEq

/-- The state of a freshly constructed plugin: all maps empty. -/
def emptyPluginState : PluginState :=
  { assetIntegrity := [], inverseAssetIntegrity := [], hashByChunkId := [] }

/-- `Plugin.updateAssetIntegrity`: insert the forward and reverse mapping
only when the asset key is not already present. -/
def updateAssetIntegrity (st : PluginState) (assetKey integrity : String) :
    PluginState :=
  if mapHas st.assetIntegrity assetKey then st
  else
    { st with
      assetIntegrity := mapSet st.assetIntegrity assetKey integrity
      inverseAssetIntegrity := mapSet st.inverseAssetIntegrity integrity assetKey }

/-- `Plugin.updateHash`: look the old hash up in the reverse map; when the
resulting asset key is truthy (a non-empty string) and exactly one content
buffer was supplied, recompute, delete both directions and re-insert, and
return the new integrity; otherwise return `none` and leave the state as
it was.  `ci` stands for `computeIntegrity` from the repository's `util`
module and `hf` for `options.hashFuncNames`. -/
def updateHash (ci : List String → String → String) (hf : List String)
    (st : PluginState) (input : List String) (oldHash : String) :
    Option String × PluginState :=
  match mapGet? st.inverseAssetIntegrity oldHash with
  | some assetKey =>
      if assetKey ≠ "" ∧ input.length = 1 then
        let newIntegrity := ci hf (input.headD "")
        let st' :=
          { st with
            inverseAssetIntegrity := mapDelete st.inverseAssetIntegrity oldHash
            assetIntegrity := mapDelete st.assetIntegrity assetKey }
        (some newIntegrity, updateAssetIntegrity st' assetKey newIntegrity)
      else (none, st)
  | none => (none, st)

theorem updateAssetIntegrity_of_has (st : PluginState) (k d : String)
    (h : mapHas st.assetIntegrity k = true) :
    updateAssetIntegrity st k d = st := by
  simp [updateAssetIntegrity, h]

theorem updateAssetIntegrity_of_not_has (st : PluginState) (k d : String)
    (h : mapHas st.assetIntegrity k = false) :
    updateAssetIntegrity st k d =
      { st with
        assetIntegrity := mapSet st.assetIntegrity k d
        inverseAssetIntegrity := mapSet st.inverseAssetIntegrity d k } := by
  simp [updateAssetIntegrity, h]

/-- One registry operation, as named by the spec: `record` is
`updateAssetIntegrity` and `rehash` is `updateHash`. -/
inductive RegOp where
  | record : String → String → RegOp
  | rehash : List String → String → RegOp

/-- Apply one registry operation to the plugin state. -/
def applyOp (ci : List String → String → String) (hf : List String)
    (st : PluginState) : RegOp → PluginState
  | .record k d => updateAssetIntegrity st k d
  | .rehash input old => (updateHash ci hf st input old).2

/-- Run a sequence of registry operations from the freshly constructed
(empty) plugin state. -/
def applyOps (ci : List String → String → String) (hf : List String)
    (ops : List RegOp) : PluginState :=
  ops.foldl (applyOp ci hf) emptyPluginState

/-- Reverse-to-forward consistency of a forward map `fwd` and a reverse map
`inv`: every reverse entry points back to a live forward entry. -/
def InvRel (fwd inv : List (String × String)) : Prop :=
  ∀ d k, mapGet? inv d = some k → mapGet? fwd k = some d

/-- The direction of the registry invariant that the code maintains. -/
def RegInv (st : PluginState) : Prop :=
  InvRel st.assetIntegrity st.inverseAssetIntegrity

theorem invRel_insert (fwd inv : List (String × String)) (k d : String)
    (h : InvRel fwd inv) (hhas : mapHas fwd k = false) :
    InvRel (mapSet fwd k d) (mapSet inv d k) := by
  intro d' k' hrev
  rw [mapGet_set] at hrev
  rw [mapGet_set]
  by_cases hd : d' = d
  · subst hd
    rw [if_pos rfl] at hrev
    injection hrev with hkk
    subst hkk
    rw [if_pos rfl]
  · rw [if_neg hd] at hrev
    have hfwd := h d' k' hrev
    by_cases hk : k' = k
    · subst hk
      simp [mapHas, hfwd] at hhas
    · rw [if_neg hk]
      exact hfwd

theorem invRel_delete_insert (fwd inv : List (String × String))
    (key old newI : String) (h : InvRel fwd inv)
    (hold : mapGet? fwd key = some old) :
    InvRel (mapSet (mapDelete fwd key) key newI)
      (mapSet (mapDelete inv old) newI key) := by
  intro d' k' hrev
  rw [mapGet_set] at hrev
  rw [mapGet_set]
  by_cases hd : d' = newI
  · subst hd
    rw [if_pos rfl] at hrev
    injection hrev with hkk
    subst hkk
    rw [if_pos rfl]
  · rw [if_neg hd, mapGet_delete] at hrev
    split at hrev
    · exact Option.noConfusion hrev
    · next hdold =>
      have hfwd := h d' k' hrev
      by_cases hk : k' = key
      · subst hk
        rw [hold] at hfwd
        injection hfwd with he
        exact absurd he.symm hdold
      · rw [if_neg hk, mapGet_delete, if_neg hk]
        exact hfwd

theorem regInv_empty : RegInv emptyPluginState := by
  intro d k h
  simp [emptyPluginState, mapGet?] at h

theorem regInv_updateAssetIntegrity (st : PluginState) (k d : String)
    (h : RegInv st) : RegInv (updateAssetIntegrity st k d) := by
  cases hhas : mapHas st.assetIntegrity k with
  | true => rw [updateAssetIntegrity_of_has st k d hhas]; exact h
  | false =>
    rw [updateAssetIntegrity_of_not_has st k d hhas]
    exact invRel_insert st.assetIntegrity st.inverseAssetIntegrity k d h hhas

theorem regInv_updateHash (ci : List String → String → String)
    (hf : List String) (st : PluginState) (input : List String)
    (old : String) (h : RegInv st) :
    RegInv (updateHash ci hf st input old).2 := by
  unfold updateHash
  split
  · next assetKey hrev =>
    by_cases hcond : assetKey ≠ "" ∧ input.length = 1
    · rw [if_pos hcond]
      have hold : mapGet? st.assetIntegrity assetKey = some old :=
        h old assetKey hrev
      have hnothas :
          mapHas (mapDelete st.assetIntegrity assetKey) assetKey = false := by
        simp [mapHas, mapGet_delete]
      show RegInv (updateAssetIntegrity
        { st with
          inverseAssetIntegrity := mapDelete st.inverseAssetIntegrity old
          assetIntegrity := mapDelete st.assetIntegrity assetKey }
        assetKey (ci hf (input.headD "")))
      rw [updateAssetIntegrity_of_not_has _ _ _ hnothas]
      exact invRel_delete_insert st.assetIntegrity st.inverseAssetIntegrity
        assetKey old (ci hf (input.headD "")) h hold
    · rw [if_neg hcond]
      exact h
  · next hrev => exact h

/-- First index (in characters) at which `pat` occurs as a contiguous
sublist of the second argument, JS `String.prototype.indexOf`. -/
def findSub (pat : List Char) : List Char → Option Nat
  | [] => if pat.isPrefixOf ([] : List Char) then some 0 else none
  | c :: rest =>
      if pat.isPrefixOf (c :: rest) then some 0
      else (findSub pat rest).map (fun n => n + 1)

/-- JS `source.indexOf(marker)`, returning `none` instead of `-1`. -/
def strIndexOf? (s pat : String) : Option Nat :=
  findSub pat.toList s.toList

/-- Modelled from the spec: `makePlaceholder` of the repository's `util`
module (not among the available sources) — the Placeholder Codec `encode`,
a fixed-shape marker token determined by the algorithm-name set and the
referencing chunk identifier, guaranteed not to collide with ordinary
content. -/
def makePlaceholder (hf : List String) (chunkId : String) : String :=
  "%%SRI-" ++ String.intercalate "," hf ++ "-CHUNK" ++ chunkId ++ "%%"

/-- Apply replacements `(start, length, text)` measured against the
original source, in ascending `start` order; `cur` is the original offset
of the head of the remaining character list.  This is the effect of
webpack's `ReplaceSource`, which resolves all replacement positions
against the original content. -/
def applyReps : Nat → List Char → List (Nat × Nat × String) → List Char
  | _, s, [] => s
  | cur, s, (start, len, text) :: rest =>
      s.take (start - cur) ++ text.toList ++
        applyReps (start + len) (s.drop (start - cur + len)) rest

/-- Insert one replacement into a list sorted by start offset. -/
def insertRep (r : Nat × Nat × String) :
    List (Nat × Nat × String) → List (Nat × Nat × String)
  | [] => [r]
  | r' :: rest => if r.1 ≤ r'.1 then r :: r' :: rest else r' :: insertRep r rest

/-- Sort replacements by start offset (`ReplaceSource` applies its
replacements sorted by original position). -/
def sortReps (rs : List (Nat × Nat × String)) : List (Nat × Nat × String) :=
  rs.foldr insertRep []

/-- The content transformation of `Plugin.replaceAsset`: for every
`(chunkId, hash)` entry of `hashByChunkId`, locate the placeholder marker
for `chunkId` in the old source and replace its character range with the
hash; entries whose marker does not occur are skipped. -/
def replaceAssetContent (hf : List String)
    (hashByChunkId : List (String × String)) (oldSource : String) : String :=
  String.mk (applyReps 0 oldSource.toList (sortReps
    (hashByChunkId.filterMap (fun idAndHash =>
      match strIndexOf? oldSource (makePlaceholder hf idAndHash.1) with
      | some pos =>
          some (pos, (makePlaceholder hf idAndHash.1).length, idAndHash.2)
      | none => none))))

/-- A webpack chunk, restricted to the two fields the plugin reads: its
(nullable) id and its set of emitted files. -/
structure Chunk where
  id : Option String
  files : List String
deriving DecidableEq

/-- The synthetic file name `` `${childChunk.id}.js` `` pushed when a chunk
has no files (JS renders a `null` id as the string "null"). -/
def chunkFallbackName (c : Chunk) : String :=
  (match c.id with | some i => i | none => "null") ++ ".js"

/-- `Plugin.processChunkAssets`: for each file of the chunk (or the
synthetic per-chunk-id file when it has none), if the asset exists,
substitute known child hashes into its content via `replaceAsset`, compute
the integrity of the substituted content, store it under the chunk id in
`hashByChunkId` (when the id is non-null), and record it in the registry.
The reporter warnings and the webpack `assetInfo` content-hash metadata
update are external effects and are not part of the state modelled here. -/
def processChunkAssets (ci : List String → String → String) (hf : List String)
    (childChunk : Chunk) (assets : List (String × String)) (st : PluginState) :
    List (String × String) × PluginState :=
  let files :=
    if childChunk.files.isEmpty then [chunkFallbackName childChunk]
    else childChunk.files
  files.foldl (fun acc sourcePath =>
    match mapGet? acc.1 sourcePath with
    | some oldSource =>
        let newSource := replaceAssetContent hf acc.2.hashByChunkId oldSource
        let integrity := ci hf newSource
        let st1 :=
          match childChunk.id with
          | some cid =>
              { acc.2 with hashByChunkId := mapSet acc.2.hashByChunkId cid integrity }
          | none => acc.2
        (mapSet acc.1 sourcePath newSource,
          updateAssetIntegrity st1 sourcePath integrity)
    | none => acc) (assets, st)

/-- A strongly connected component of the chunk graph, as produced by the
Cycle Resolver; the plugin only reads its `nodes` field. -/
structure StronglyConnectedComponent where
  nodes : List Chunk
deriving DecidableEq

/-- `Plugin.addMissingIntegrityHashes`: for every asset key, try to read
the source (`none` stands for `asset.source()` throwing, in which case the
asset is skipped) and record its digest; `updateAssetIntegrity` keeps any
digest already recorded. -/
def addMissingIntegrityHashes (ci : List String → String → String)
    (hf : List String) (assets : List (String × Option String))
    (st : PluginState) : PluginState :=
  match assets with
  | [] => st
  | (assetKey, some source) :: rest =>
      addMissingIntegrityHashes ci hf rest
        (updateAssetIntegrity st assetKey (ci hf source))
  | (_, none) :: rest => addMissingIntegrityHashes ci hf rest st

/-- The `hashLoading === "lazy"` branch of `Plugin.processAssets`: iterate
the sorted SCCs, process every member chunk's assets, then run
`addMissingIntegrityHashes` over the (readable) asset collection. -/
def processAssetsLazy (ci : List String → String → String) (hf : List String)
    (sortedSccChunks : List StronglyConnectedComponent)
    (assets : List (String × String)) (st : PluginState) :
    List (String × String) × PluginState :=
  let walked := sortedSccChunks.foldl
    (fun acc scc =>
      scc.nodes.foldl (fun a c => processChunkAssets ci hf c a.1 a.2) acc)
    (assets, st)
  (walked.1,
    addMissingIntegrityHashes ci hf
      (walked.1.map (fun kv => (kv.1, some kv.2))) walked.2)

/-- The plugin fields touched by `beforeRuntimeRequirements`: the registry
and chunk-id table plus the lazy-mode SCC bookkeeping. -/
structure ChunkWalkState where
  plugin : PluginState
  sortedSccChunks : List StronglyConnectedComponent
  chunkManifest : List (Chunk × List Chunk)
deriving DecidableEq

/-- `Plugin.beforeRuntimeRequirements`: in lazy mode store the SCC order
and chunk manifest computed by `getChunkToManifestMap` (a `util` function
outside the available sources, so its result enters as the parameter
`computed`), then clear `hashByChunkId`. -/
def beforeRuntimeRequirements (hashLoading : String)
    (computed : List StronglyConnectedComponent × List (Chunk × List Chunk))
    (s : ChunkWalkState) : ChunkWalkState :=
  let s1 :=
    if hashLoading = "lazy" then
      { s with sortedSccChunks := computed.1, chunkManifest := computed.2 }
    else s
  { s1 with plugin := { s1.plugin with hashByChunkId := [] } }

/-- An HTML tag as handed over by html-webpack-plugin, restricted to the
fields the plugin touches or could touch. -/
structure HtmlTagObject where
  tagName : String
  voidTag : Bool
  attributes : List (String × String)
  innerHTML : Option String
deriving DecidableEq

/-- Modelled from the spec: `getTagSrc` of the repository's `util` module
(not among the available sources) — resolve the tag's source reference,
its `src` attribute if present, else its `href` attribute, else absent. -/
def getTagSrc (tag : HtmlTagObject) : Option String :=
  match mapGet? tag.attributes "src" with
  | some s => some s
  | none => mapGet? tag.attributes "href"

/-- JS `a || b` on an optional string: the default is used when the value
is missing or is the (falsy) empty string. -/
def jsOrString (o : Option String) (dflt : String) : String :=
  match o with
  | some s => if s = "" then dflt else s
  | none => dflt

/-- `Plugin.getIntegrityChecksumForAsset`: direct registry lookup, then a
path-normalized scan over the compilation's asset keys.  `normalizePath`
lives in the `util` module outside the available sources and enters as a
parameter. -/
def getIntegrityChecksumForAsset (normalizePath : String → String)
    (assetIntegrity : List (String × String)) (assetKeys : List String)
    (src : String) : Option String :=
  if mapHas assetIntegrity src then mapGet? assetIntegrity src
  else
    match assetKeys.find? (fun assetKey =>
        normalizePath assetKey = normalizePath src) with
    | some normalizedKey => mapGet? assetIntegrity normalizedKey
    | none => none

/-- `Plugin.processTag`: return the tag unchanged when it already carries
an `integrity` attribute or has no truthy source reference — the JS guard
`if (!tagSrc) return` skips both a missing and a (falsy) empty-string
source; otherwise resolve the source relative to the public path
(`hwpAssetPath`, a parameter since it wraps the external `path.relative`),
look the digest up in the registry falling back to hashing the bytes read
from the output directory (`readFile`, the external `fs.readFileSync`
composed with `path.join`), and set the `integrity` and `crossorigin`
attributes. -/
def processTag (ci : List String → String → String) (hf : List String)
    (normalizePath hwpAssetPath readFile : String → String)
    (assetIntegrity : List (String × String)) (assetKeys : List String)
    (crossOriginLoading : Option String) (tag : HtmlTagObject) :
    HtmlTagObject :=
  if mapHas tag.attributes "integrity" then tag
  else
    match getTagSrc tag with
    | none => tag
    | some tagSrc =>
      if tagSrc = "" then tag
      else
        let src := hwpAssetPath tagSrc
        let integrity :=
          jsOrString
            (getIntegrityChecksumForAsset normalizePath assetIntegrity assetKeys src)
            (ci hf (readFile src))
        let attrs := mapSet tag.attributes "integrity" integrity
        { tag with
          attributes := mapSet attrs "crossorigin"
            (jsOrString crossOriginLoading "anonymous") }

theorem regInv_foldl (ci : List String → String → String) (hf : List String)
    (ops : List RegOp) (st : PluginState) (h : RegInv st) :
    RegInv (ops.foldl (applyOp ci hf) st) := by
  induction ops generalizing st with
  | nil => exact h
  | cons op rest ih =>
    rw [List.foldl_cons]
    apply ih
    cases op with
    | record k d => exact regInv_updateAssetIntegrity st k d h
    | rehash input old => exact regInv_updateHash ci hf st input old h

theorem mapHas_after_update (st : PluginState) (k d : String) :
    mapHas (updateAssetIntegrity st k d).assetIntegrity k = true := by
  cases hhas : mapHas st.assetIntegrity k with
  | true => rw [updateAssetIntegrity_of_has st k d hhas]; exact hhas
  | false =>
    rw [updateAssetIntegrity_of_not_has st k d hhas]
    simp [mapHas, mapGet_set]

theorem updateAssetIntegrity_preserves_get (st : PluginState)
    (k' i k d : String) (h : mapGet? st.assetIntegrity k = some d) :
    mapGet? (updateAssetIntegrity st k' i).assetIntegrity k = some d := by
  cases hhas : mapHas st.assetIntegrity k' with
  | true => rw [updateAssetIntegrity_of_has st k' i hhas]; exact h
  | false =>
    rw [updateAssetIntegrity_of_not_has st k' i hhas]
    show mapGet? (mapSet st.assetIntegrity k' i) k = some d
    rw [mapGet_set]
    by_cases hk : k = k'
    · subst hk
      simp [mapHas, h] at hhas
    · rw [if_neg hk]; exact h

theorem updateHash_known (ci : List String → String → String)
    (hf : List String) (st : PluginState) (old k : String)
    (hk : mapGet? st.inverseAssetIntegrity old = some k) (hne : k ≠ "")
    (b : String) :
    updateHash ci hf st [b] old =
      (some (ci hf b),
        updateAssetIntegrity
          { st with
            inverseAssetIntegrity := mapDelete st.inverseAssetIntegrity old
            assetIntegrity := mapDelete st.assetIntegrity k }
          k (ci hf b)) := by
  unfold updateHash
  split
  · next assetKey heq =>
    rw [hk] at heq
    injection heq with he
    subst he
    rw [if_pos ⟨hne, rfl⟩]
    rfl
  · next heq =>
    rw [hk] at heq
    exact Option.noConfusion heq

theorem updateHash_noop (ci : List String → String → String)
    (hf : List String) (st : PluginState) (input : List String) (old : String)
    (h : mapGet? st.inverseAssetIntegrity old = none ∨
      mapGet? st.inverseAssetIntegrity old = some "" ∨ input.length ≠ 1) :
    updateHash ci hf st input old = (none, st) := by
  unfold updateHash
  split
  · next assetKey heq =>
    rcases h with h | h | h
    · rw [heq] at h; exact Option.noConfusion h
    · rw [heq] at h
      injection h with he
      rw [if_neg (fun hc => hc.1 he)]
    · rw [if_neg (fun hc => h hc.2)]
  · next heq => rfl

/-- C1 — counterexample.  Recording the same digest for two distinct asset
keys (two assets with identical content) makes the forward and reverse
maps disagree: `lookup "a" = "d"` but the reverse map sends `"d"` to
`"b"`, so `lookup(k) = d ⇔ reverse[d] = k` fails after this sequence of
`record` calls. -/
theorem C1_counterexample :
    mapGet? (applyOps (fun _ s => s) ["sha256"]
      [RegOp.record "a" "d", RegOp.record "b" "d"]).assetIntegrity "a" =
        some "d" ∧
    mapGet? (applyOps (fun _ s => s) ["sha256"]
      [RegOp.record "a" "d", RegOp.record "b" "d"]).inverseAssetIntegrity "d" ≠
        some "a" := by
  constructor
  · decide
  · decide

/-- C1 — amended claim: for every sequence of `record`
(`updateAssetIntegrity`) and `rehash` (`updateHash`) calls starting from
the empty registry, the reverse-to-forward direction of the consistency
invariant holds: whenever the reverse map sends digest `d` to asset key
`k`, the forward lookup of `k` returns `d`.  (The forward-to-reverse
direction can fail when two asset keys record the same digest, as the
counterexample shows.) -/
theorem C1_registry_reverse_consistent (ci : List String → String → String)
    (hf : List String) (ops : List RegOp) (d k : String)
    (h : mapGet? (applyOps ci hf ops).inverseAssetIntegrity d = some k) :
    mapGet? (applyOps ci hf ops).assetIntegrity k = some d :=
  regInv_foldl ci hf ops emptyPluginState regInv_empty d k h

/-- C1 — witness for the amended claim at a concrete input. -/
theorem C1_witness :
    mapGet? (applyOps (fun _ s => s) ["sha256"]
      [RegOp.record "a" "x"]).inverseAssetIntegrity "x" = some "a" ∧
    mapGet? (applyOps (fun _ s => s) ["sha256"]
      [RegOp.record "a" "x"]).assetIntegrity "a" = some "x" :=
  ⟨by decide,
   C1_registry_reverse_consistent (fun _ s => s) ["sha256"]
     [RegOp.record "a" "x"] "x" "a" (by decide)⟩

/-- C3 — counterexample.  After `record("", "d")` (the code permits the
empty asset key), the old digest `"d"` is known to the reverse map and
exactly one buffer is supplied, yet `updateHash` returns `none` and
changes nothing, because the JS truthiness test `if (assetKey && ...)`
treats the empty-string key as false.  The claim that rehash "returns the
new digest ... when the old digest is known and exactly one content
buffer is supplied" is therefore false as stated. -/
theorem C3_counterexample :
    mapGet? (updateAssetIntegrity emptyPluginState "" "d").inverseAssetIntegrity
        "d" = some "" ∧
    updateHash (fun _ s => s) ["sha256"]
        (updateAssetIntegrity emptyPluginState "" "d") ["B"] "d" =
      (none, updateAssetIntegrity emptyPluginState "" "d") := by
  constructor
  · decide
  · decide

/-- C3 — amended claim: `updateHash` returns the new digest and replaces
both the forward and reverse entries exactly when the old digest maps to
a non-empty asset key and exactly one content buffer is supplied; it
returns `none` and leaves both maps completely unchanged when the old
digest is unknown, maps to the empty asset key, or the input is not a
single buffer (a total no-op, never an error). -/
theorem C3_rehash_characterization (ci : List String → String → String)
    (hf : List String) (st : PluginState) (input : List String)
    (old : String) :
    (∀ k, mapGet? st.inverseAssetIntegrity old = some k → k ≠ "" →
      ∀ b, input = [b] →
        updateHash ci hf st input old =
          (some (ci hf b),
            { assetIntegrity := mapSet (mapDelete st.assetIntegrity k) k (ci hf b)
              inverseAssetIntegrity :=
                mapSet (mapDelete st.inverseAssetIntegrity old) (ci hf b) k
              hashByChunkId := st.hashByChunkId })) ∧
    ((mapGet? st.inverseAssetIntegrity old = none ∨
      mapGet? st.inverseAssetIntegrity old = some "" ∨ input.length ≠ 1) →
      updateHash ci hf st input old = (none, st)) := by
  constructor
  · intro k hk hne b hb
    subst hb
    have hnothas : mapHas (mapDelete st.assetIntegrity k) k = false := by
      simp [mapHas, mapGet_delete]
    rw [updateHash_known ci hf st old k hk hne b,
      updateAssetIntegrity_of_not_has _ _ _ hnothas]
  · exact updateHash_noop ci hf st input old

/-- C3 — witness for the amended claim: a successful rehash and a no-op
rehash at concrete inputs. -/
theorem C3_witness :
    updateHash (fun _ s => s) ["sha256"]
        (updateAssetIntegrity emptyPluginState "a" "d") ["B"] "d" =
      (some "B",
        { assetIntegrity :=
            mapSet (mapDelete (updateAssetIntegrity emptyPluginState "a" "d").assetIntegrity "a") "a" "B"
          inverseAssetIntegrity :=
            mapSet (mapDelete (updateAssetIntegrity emptyPluginState "a" "d").inverseAssetIntegrity "d") "B" "a"
          hashByChunkId :=
            (updateAssetIntegrity emptyPluginState "a" "d").hashByChunkId }) ∧
    updateHash (fun _ s => s) ["sha256"]
        (updateAssetIntegrity emptyPluginState "a" "d") ["B"] "zz" =
      (none, updateAssetIntegrity emptyPluginState "a" "d") :=
  ⟨(C3_rehash_characterization (fun _ s => s) ["sha256"]
      (updateAssetIntegrity emptyPluginState "a" "d") ["B"] "d").1
      "a" (by decide) (by decide) "B" rfl,
   (C3_rehash_characterization (fun _ s => s) ["sha256"]
      (updateAssetIntegrity emptyPluginState "a" "d") ["B"] "zz").2
      (Or.inl (by decide))⟩

/-- C4 — `updateAssetIntegrity` is first-writer-wins: a second `record`
for the same asset key is a complete no-op (so a repeated record with the
same arguments changes nothing), and when the key was previously absent
the surviving digest is the first one recorded. -/
theorem C4_record_first_writer_wins (st : PluginState) (k d1 d2 : String) :
    updateAssetIntegrity (updateAssetIntegrity st k d1) k d2 =
      updateAssetIntegrity st k d1 ∧
    (mapHas st.assetIntegrity k = false →
      mapGet? (updateAssetIntegrity
        (updateAssetIntegrity st k d1) k d2).assetIntegrity k = some d1) := by
  have hstep : updateAssetIntegrity (updateAssetIntegrity st k d1) k d2 =
      updateAssetIntegrity st k d1 :=
    updateAssetIntegrity_of_has _ k d2 (mapHas_after_update st k d1)
  refine ⟨hstep, fun hnot => ?_⟩
  rw [hstep, updateAssetIntegrity_of_not_has st k d1 hnot]
  show mapGet? (mapSet st.assetIntegrity k d1) k = some d1
  rw [mapGet_set, if_pos rfl]

/-- C4 — witness at a concrete input. -/
theorem C4_witness :
    mapHas emptyPluginState.assetIntegrity "a" = false ∧
    mapGet? (updateAssetIntegrity
      (updateAssetIntegrity emptyPluginState "a" "x") "a" "y").assetIntegrity
        "a" = some "x" :=
  ⟨by decide, (C4_record_first_writer_wins emptyPluginState "a" "x" "y").2
    (by decide)⟩

/-- C5 — counterexample.  `beforeRuntimeRequirements` clears only
`hashByChunkId`; a pre-existing entry of the asset-integrity map survives
the call, so it is false that "after the call, every lookup on the
asset-integrity maps ... returns absent". -/
theorem C5_counterexample :
    mapGet? (beforeRuntimeRequirements "eager" ([], [])
      { plugin :=
          { assetIntegrity := [("a", "d")]
            inverseAssetIntegrity := [("d", "a")]
            hashByChunkId := [("0", "x")] }
        sortedSccChunks := []
        chunkManifest := [] }).plugin.assetIntegrity "a" = some "d" := by
  decide

/-- C5 — amended claim: at the start of the hash-emission phase,
`beforeRuntimeRequirements` resets only the chunk-id hash table — after
the call every lookup on `hashByChunkId` returns absent — while the
forward and reverse asset-integrity maps are left exactly as they were
(they start out empty for a build because a fresh plugin instance is
constructed per compilation, not because this hook clears them). -/
theorem C5_before_runtime_requirements (hashLoading : String)
    (computed : List StronglyConnectedComponent × List (Chunk × List Chunk))
    (s : ChunkWalkState) :
    (beforeRuntimeRequirements hashLoading computed s).plugin.hashByChunkId = [] ∧
    (∀ cid, mapGet? (beforeRuntimeRequirements hashLoading computed
      s).plugin.hashByChunkId cid = none) ∧
    (beforeRuntimeRequirements hashLoading computed s).plugin.assetIntegrity =
      s.plugin.assetIntegrity ∧
    (beforeRuntimeRequirements hashLoading computed s).plugin.inverseAssetIntegrity =
      s.plugin.inverseAssetIntegrity := by
  unfold beforeRuntimeRequirements
  by_cases h : hashLoading = "lazy" <;> simp [h, mapGet?]

theorem updateAssetIntegrity_hashByChunkId (st : PluginState) (k d : String) :
    (updateAssetIntegrity st k d).hashByChunkId = st.hashByChunkId := by
  cases hhas : mapHas st.assetIntegrity k with
  | true => rw [updateAssetIntegrity_of_has st k d hhas]
  | false => rw [updateAssetIntegrity_of_not_has st k d hhas]

theorem addMissing_preserves_get (ci : List String → String → String)
    (hf : List String) (assets : List (String × Option String))
    (st : PluginState) (k d : String)
    (h : mapGet? st.assetIntegrity k = some d) :
    mapGet? (addMissingIntegrityHashes ci hf assets st).assetIntegrity k =
      some d := by
  induction assets generalizing st with
  | nil => exact h
  | cons kv rest ih =>
    obtain ⟨k', src?⟩ := kv
    cases src? with
    | some src =>
      show mapGet? (addMissingIntegrityHashes ci hf rest
        (updateAssetIntegrity st k' (ci hf src))).assetIntegrity k = some d
      exact ih _ (updateAssetIntegrity_preserves_get st k' (ci hf src) k d h)
    | none =>
      show mapGet? (addMissingIntegrityHashes ci hf rest st).assetIntegrity k =
        some d
      exact ih _ h

theorem addMissing_preserves_has (ci : List String → String → String)
    (hf : List String) (assets : List (String × Option String))
    (st : PluginState) (k : String)
    (h : mapHas st.assetIntegrity k = true) :
    mapHas (addMissingIntegrityHashes ci hf assets st).assetIntegrity k =
      true := by
  obtain ⟨d, hd⟩ := (mapHas_iff _ _).1 h
  exact (mapHas_iff _ _).2 ⟨d, addMissing_preserves_get ci hf assets st k d hd⟩

theorem addMissing_complete (ci : List String → String → String)
    (hf : List String) (assets : List (String × Option String))
    (st : PluginState) (k src : String) (h : (k, some src) ∈ assets) :
    mapHas (addMissingIntegrityHashes ci hf assets st).assetIntegrity k =
      true := by
  induction assets generalizing st with
  | nil => exact absurd h (List.not_mem_nil _)
  | cons kv rest ih =>
    obtain ⟨k', src?⟩ := kv
    rcases List.mem_cons.1 h with heq | hmem
    · injection heq with h1 h2
      subst h1
      subst h2
      show mapHas (addMissingIntegrityHashes ci hf rest
        (updateAssetIntegrity st k (ci hf src))).assetIntegrity k = true
      exact addMissing_preserves_has ci hf rest _ k (mapHas_after_update st k (ci hf src))
    · cases src? with
      | some s =>
        show mapHas (addMissingIntegrityHashes ci hf rest
          (updateAssetIntegrity st k' (ci hf s))).assetIntegrity k = true
        exact ih _ hmem
      | none =>
        show mapHas (addMissingIntegrityHashes ci hf rest st).assetIntegrity k =
          true
        exact ih _ hmem

theorem replaceAssetContent_no_marker (hf : List String)
    (hbc : List (String × String)) (src : String)
    (h : ∀ cid hsh, (cid, hsh) ∈ hbc →
      strIndexOf? src (makePlaceholder hf cid) = none) :
    replaceAssetContent hf hbc src = src := by
  unfold replaceAssetContent
  have hfm : hbc.filterMap (fun idAndHash =>
      match strIndexOf? src (makePlaceholder hf idAndHash.1) with
      | some pos =>
          some (pos, (makePlaceholder hf idAndHash.1).length, idAndHash.2)
      | none => none) = [] := by
    rw [List.filterMap_eq_nil_iff]
    intro a ha
    rw [h a.1 a.2 ha]
  rw [hfm]
  rfl

theorem processChunkAssets_single (ci : List String → String → String)
    (hf : List String) (c : Chunk) (p src : String)
    (assets : List (String × String)) (st : PluginState)
    (hfiles : c.files = [p]) (hget : mapGet? assets p = some src) :
    processChunkAssets ci hf c assets st =
      (mapSet assets p (replaceAssetContent hf st.hashByChunkId src),
        updateAssetIntegrity
          (match c.id with
           | some cid =>
               { st with hashByChunkId := (mapSet st.hashByChunkId cid
                   (ci hf (replaceAssetContent hf st.hashByChunkId src))) }
           | none => st)
          p (ci hf (replaceAssetContent hf st.hashByChunkId src))) := by
  unfold processChunkAssets
  rw [hfiles]
  simp only [List.isEmpty_cons, Bool.false_eq_true, if_false, List.foldl_cons,
    List.foldl_nil]
  rw [hget]

/-- C9 — `addMissingIntegrityHashes` is best-effort and completing: every
entry already in the registry survives unchanged, every asset whose
source is readable ends up with a digest recorded, and an asset whose
source cannot be read (`none`, standing for `asset.source()` throwing) is
silently skipped with no effect on the state. -/
theorem C9_fill_missing (ci : List String → String → String)
    (hf : List String) (assets : List (String × Option String))
    (st : PluginState) :
    (∀ k d, mapGet? st.assetIntegrity k = some d →
      mapGet? (addMissingIntegrityHashes ci hf assets st).assetIntegrity k =
        some d) ∧
    (∀ k src, (k, some src) ∈ assets →
      mapHas (addMissingIntegrityHashes ci hf assets st).assetIntegrity k =
        true) ∧
    (∀ k rest, addMissingIntegrityHashes ci hf ((k, none) :: rest) st =
      addMissingIntegrityHashes ci hf rest st) :=
  ⟨fun k d h => addMissing_preserves_get ci hf assets st k d h,
   fun k src h => addMissing_complete ci hf assets st k src h,
   fun _ _ => rfl⟩

/-- C9 — witness at concrete inputs: a pre-existing entry survives, a
readable asset gets recorded, and an unreadable asset is skipped. -/
theorem C9_witness :
    mapGet? (addMissingIntegrityHashes (fun _ s => "sri-" ++ s) ["sha256"]
      [("x", some "S"), ("y", none)]
      (updateAssetIntegrity emptyPluginState "a" "d")).assetIntegrity "a" =
        some "d" ∧
    mapHas (addMissingIntegrityHashes (fun _ s => "sri-" ++ s) ["sha256"]
      [("x", some "S"), ("y", none)]
      (updateAssetIntegrity emptyPluginState "a" "d")).assetIntegrity "x" =
        true ∧
    addMissingIntegrityHashes (fun _ s => "sri-" ++ s) ["sha256"]
        [("y", none)] (updateAssetIntegrity emptyPluginState "a" "d") =
      addMissingIntegrityHashes (fun _ s => "sri-" ++ s) ["sha256"] []
        (updateAssetIntegrity emptyPluginState "a" "d") :=
  ⟨(C9_fill_missing (fun _ s => "sri-" ++ s) ["sha256"]
      [("x", some "S"), ("y", none)]
      (updateAssetIntegrity emptyPluginState "a" "d")).1 "a" "d" (by decide),
   (C9_fill_missing (fun _ s => "sri-" ++ s) ["sha256"]
      [("x", some "S"), ("y", none)]
      (updateAssetIntegrity emptyPluginState "a" "d")).2.1 "x" "S" (by decide),
   (C9_fill_missing (fun _ s => "sri-" ++ s) ["sha256"]
      [("y", none)]
      (updateAssetIntegrity emptyPluginState "a" "d")).2.2 "y" []⟩

/-- C2 — counterexample.  In lazy mode `processAssets` still runs the full
per-asset processing including `replaceAsset`'s in-place placeholder
substitution: after chunk `"0"` is hashed, processing chunk `"1"` whose
asset contains the placeholder for chunk `"0"` rewrites that asset's
bytes, so "the asset's content bytes are left unmodified by the chunk
walk" is false as stated. -/
theorem C2_counterexample :
    mapGet? (processAssetsLazy (fun _ s => "sri-" ++ s) ["sha256"]
      [⟨[⟨some "0", ["a.js"]⟩]⟩, ⟨[⟨some "1", ["b.js"]⟩]⟩]
      [("a.js", "AAA"), ("b.js", "load(%%SRI-sha256-CHUNK0%%)")]
      emptyPluginState).1 "b.js" ≠ some "load(%%SRI-sha256-CHUNK0%%)" := by
  decide

/-- C2 — amended claim: in lazy mode `processAssets` iterates the sorted
SCCs and applies to every member chunk's asset the same per-asset
processing as the eager walk — digest computation and registry update,
but also the `replaceAsset` placeholder substitution against the
accumulated `hashByChunkId` table.  An asset's content bytes are left
unmodified exactly in the case that its content contains no placeholder
of an already-hashed chunk id (which holds for the runtime code webpack
emits in lazy mode, since that code reads hashes from the runtime
manifest instead of embedding placeholders). -/
theorem C2_lazy_walk (ci : List String → String → String) (hf : List String)
    (c : Chunk) (p src : String) (assets : List (String × String))
    (st : PluginState) (hfiles : c.files = [p])
    (hget : mapGet? assets p = some src)
    (hmk : ∀ cid hsh, (cid, hsh) ∈ st.hashByChunkId →
      strIndexOf? src (makePlaceholder hf cid) = none)
    (hnot : mapHas st.assetIntegrity p = false) :
    mapGet? (processAssetsLazy ci hf [⟨[c]⟩] assets st).1 p = some src ∧
    mapGet? (processAssetsLazy ci hf [⟨[c]⟩] assets st).2.assetIntegrity p =
      some (ci hf src) := by
  have hrep : replaceAssetContent hf st.hashByChunkId src = src :=
    replaceAssetContent_no_marker hf st.hashByChunkId src hmk
  have hpc := processChunkAssets_single ci hf c p src assets st hfiles hget
  rw [hrep] at hpc
  have hpl : processAssetsLazy ci hf [⟨[c]⟩] assets st =
      ((processChunkAssets ci hf c assets st).1,
        addMissingIntegrityHashes ci hf
          ((processChunkAssets ci hf c assets st).1.map
            (fun kv => (kv.1, some kv.2)))
          (processChunkAssets ci hf c assets st).2) := rfl
  rw [hpl, hpc]
  dsimp only
  constructor
  · rw [mapGet_set, if_pos rfl]
  · apply addMissing_preserves_get
    cases hcid : c.id with
    | some cid =>
      dsimp only
      have hnot1 : mapHas ({ st with hashByChunkId :=
          (mapSet st.hashByChunkId cid (ci hf src)) } :
            PluginState).assetIntegrity p = false := hnot
      rw [updateAssetIntegrity_of_not_has _ _ _ hnot1]
      show mapGet? (mapSet st.assetIntegrity p (ci hf src)) p = some (ci hf src)
      rw [mapGet_set, if_pos rfl]
    | none =>
      dsimp only
      rw [updateAssetIntegrity_of_not_has _ _ _ hnot]
      show mapGet? (mapSet st.assetIntegrity p (ci hf src)) p = some (ci hf src)
      rw [mapGet_set, if_pos rfl]

/-- C2 — witness for the amended claim at a concrete marker-free input. -/
theorem C2_witness :
    mapGet? (processAssetsLazy (fun _ s => "sri-" ++ s) ["sha256"]
      [⟨[⟨some "1", ["b.js"]⟩]⟩] [("b.js", "BBB")] emptyPluginState).1
        "b.js" = some "BBB" ∧
    mapGet? (processAssetsLazy (fun _ s => "sri-" ++ s) ["sha256"]
      [⟨[⟨some "1", ["b.js"]⟩]⟩] [("b.js", "BBB")]
      emptyPluginState).2.assetIntegrity "b.js" = some ("sri-" ++ "BBB") :=
  C2_lazy_walk (fun _ s => "sri-" ++ s) ["sha256"] ⟨some "1", ["b.js"]⟩
    "b.js" "BBB" [("b.js", "BBB")] emptyPluginState rfl (by decide)
    (by intro cid hsh hmem; exact absurd hmem (List.not_mem_nil _))
    (by decide)

/-- C6 — for a chunk asset processed by the chunk walk, placeholder
replacement completes before the asset's own digest is computed: the
integrity recorded in the registry and in `hashByChunkId` is the digest
of the post-substitution content (and the stored asset is the
post-substitution content). -/
theorem C6_digest_of_substituted_content (ci : List String → String → String)
    (hf : List String) (st : PluginState) (assets : List (String × String))
    (c : Chunk) (cid p src : String) (hfiles : c.files = [p])
    (hid : c.id = some cid) (hget : mapGet? assets p = some src)
    (hnot : mapHas st.assetIntegrity p = false) :
    mapGet? (processChunkAssets ci hf c assets st).1 p =
      some (replaceAssetContent hf st.hashByChunkId src) ∧
    mapGet? (processChunkAssets ci hf c assets st).2.assetIntegrity p =
      some (ci hf (replaceAssetContent hf st.hashByChunkId src)) ∧
    mapGet? (processChunkAssets ci hf c assets st).2.hashByChunkId cid =
      some (ci hf (replaceAssetContent hf st.hashByChunkId src)) := by
  have hpc := processChunkAssets_single ci hf c p src assets st hfiles hget
  rw [hid] at hpc
  rw [hpc]
  dsimp only
  refine ⟨?_, ?_, ?_⟩
  · rw [mapGet_set, if_pos rfl]
  · have hnot1 : mapHas ({ st with hashByChunkId := (mapSet st.hashByChunkId cid
        (ci hf (replaceAssetContent hf st.hashByChunkId src))) } :
          PluginState).assetIntegrity p = false := hnot
    rw [updateAssetIntegrity_of_not_has _ _ _ hnot1]
    show mapGet? (mapSet st.assetIntegrity p
      (ci hf (replaceAssetContent hf st.hashByChunkId src))) p = _
    rw [mapGet_set, if_pos rfl]
  · rw [updateAssetIntegrity_hashByChunkId]
    show mapGet? (mapSet st.hashByChunkId cid
      (ci hf (replaceAssetContent hf st.hashByChunkId src))) cid = _
    rw [mapGet_set, if_pos rfl]

/-- C6 — witness: the spec's scenario shape, with the placeholder for
child chunk "7" replaced by its digest before the asset's own digest is
taken. -/
theorem C6_witness :
    mapGet? (processChunkAssets (fun _ s => "sri-" ++ s) ["sha256"]
      ⟨some "7", ["c.js"]⟩ [("c.js", "load(%%SRI-sha256-CHUNK7%%)")]
      ⟨[], [], [("7", "sha256-AAAA")]⟩).1 "c.js" =
        some "load(sha256-AAAA)" ∧
    mapGet? (processChunkAssets (fun _ s => "sri-" ++ s) ["sha256"]
      ⟨some "7", ["c.js"]⟩ [("c.js", "load(%%SRI-sha256-CHUNK7%%)")]
      ⟨[], [], [("7", "sha256-AAAA")]⟩).2.assetIntegrity "c.js" =
        some ("sri-" ++ "load(sha256-AAAA)") ∧
    mapGet? (processChunkAssets (fun _ s => "sri-" ++ s) ["sha256"]
      ⟨some "7", ["c.js"]⟩ [("c.js", "load(%%SRI-sha256-CHUNK7%%)")]
      ⟨[], [], [("7", "sha256-AAAA")]⟩).2.hashByChunkId "7" =
        some ("sri-" ++ "load(sha256-AAAA)") := by
  have h := C6_digest_of_substituted_content (fun _ s => "sri-" ++ s)
    ["sha256"] ⟨[], [], [("7", "sha256-AAAA")]⟩
    [("c.js", "load(%%SRI-sha256-CHUNK7%%)")] ⟨some "7", ["c.js"]⟩
    "7" "c.js" "load(%%SRI-sha256-CHUNK7%%)" rfl rfl (by decide) (by decide)
  have e : replaceAssetContent ["sha256"]
      (PluginState.hashByChunkId ⟨[], [], [("7", "sha256-AAAA")]⟩)
      "load(%%SRI-sha256-CHUNK7%%)" = "load(sha256-AAAA)" := by decide
  rw [e] at h
  exact h

theorem mapHas_set_self (m : List (String × String)) (k v : String) :
    mapHas (mapSet m k v) k = true := by
  simp [mapHas, mapGet_set]

theorem mapHas_set_other (m : List (String × String)) (k v q : String)
    (h : q ≠ k) : mapHas (mapSet m k v) q = mapHas m q := by
  simp [mapHas, mapGet_set, h]

theorem processTag_of_has (ci : List String → String → String)
    (hf : List String) (np hap rf : String → String)
    (reg : List (String × String)) (keys : List String)
    (xo : Option String) (tag : HtmlTagObject)
    (h : mapHas tag.attributes "integrity" = true) :
    processTag ci hf np hap rf reg keys xo tag = tag := by
  unfold processTag
  rw [if_pos h]

theorem processTag_cases (ci : List String → String → String)
    (hf : List String) (np hap rf : String → String)
    (reg : List (String × String)) (keys : List String)
    (xo : Option String) (tag : HtmlTagObject) :
    processTag ci hf np hap rf reg keys xo tag = tag ∨
      mapHas (processTag ci hf np hap rf reg keys xo tag).attributes
        "integrity" = true := by
  unfold processTag
  by_cases h1 : mapHas tag.attributes "integrity" = true
  · rw [if_pos h1]
    exact Or.inr h1
  · rw [if_neg h1]
    split
    · exact Or.inl rfl
    · next tagSrc heq =>
      by_cases hts : tagSrc = ""
      · rw [if_pos hts]
        exact Or.inl rfl
      · rw [if_neg hts]
        right
        dsimp only
        rw [mapHas_set_other _ _ _ _ (by decide), mapHas_set_self]

/-- C7 — the Tag Injector is idempotent: a tag already carrying an
`integrity` attribute is returned unchanged, so a second `processTag` pass
over an already-processed tag changes nothing. -/
theorem C7_processTag_idempotent (ci : List String → String → String)
    (hf : List String) (np hap rf : String → String)
    (reg : List (String × String)) (keys : List String)
    (xo : Option String) (tag : HtmlTagObject) :
    processTag ci hf np hap rf reg keys xo
        (processTag ci hf np hap rf reg keys xo tag) =
      processTag ci hf np hap rf reg keys xo tag := by
  rcases processTag_cases ci hf np hap rf reg keys xo tag with e | h
  · rw [e]
    exact e
  · exact processTag_of_has ci hf np hap rf reg keys xo _ h

/-- C10 — frame of `processTag`: only the `integrity` and `crossorigin`
attribute entries can change, every other attribute and every other tag
field is preserved, and a tag with no resolvable source reference (no
`src`/`href`, so `getTagSrc` is absent) is returned entirely unchanged —
for every registry and every file-reading function, which expresses that
no registry lookup or file read influences the result. -/
theorem C10_processTag_frame (ci : List String → String → String)
    (hf : List String) (np hap rf : String → String)
    (reg : List (String × String)) (keys : List String)
    (xo : Option String) (tag : HtmlTagObject) :
    ((processTag ci hf np hap rf reg keys xo tag).tagName = tag.tagName ∧
     (processTag ci hf np hap rf reg keys xo tag).voidTag = tag.voidTag ∧
     (processTag ci hf np hap rf reg keys xo tag).innerHTML = tag.innerHTML) ∧
    (∀ a, a ≠ "integrity" → a ≠ "crossorigin" →
      mapGet? (processTag ci hf np hap rf reg keys xo tag).attributes a =
        mapGet? tag.attributes a) ∧
    (getTagSrc tag = none →
      processTag ci hf np hap rf reg keys xo tag = tag) := by
  unfold processTag
  by_cases h1 : mapHas tag.attributes "integrity" = true
  · rw [if_pos h1]
    exact ⟨⟨rfl, rfl, rfl⟩, fun a _ _ => rfl, fun _ => rfl⟩
  · rw [if_neg h1]
    split
    · exact ⟨⟨rfl, rfl, rfl⟩, fun a _ _ => rfl, fun _ => rfl⟩
    · next tagSrc heq =>
      by_cases hts : tagSrc = ""
      · rw [if_pos hts]
        exact ⟨⟨rfl, rfl, rfl⟩, fun a _ _ => rfl, fun _ => rfl⟩
      · rw [if_neg hts]
        refine ⟨⟨rfl, rfl, rfl⟩, ?_, ?_⟩
        · intro a ha hc
          dsimp only
          rw [mapGet_set, if_neg hc, mapGet_set, if_neg ha]
        · intro hnone
          rw [heq] at hnone
          exact Option.noConfusion hnone

/-- C10 — witness: a source-less tag is untouched and its other
attributes survive. -/
theorem C10_witness :
    mapGet? (processTag (fun _ s => "sri-" ++ s) ["sha256"] id id (fun _ => "")
      [] [] none ⟨"meta", false, [("charset", "utf-8")], none⟩).attributes
        "charset" = some "utf-8" ∧
    processTag (fun _ s => "sri-" ++ s) ["sha256"] id id (fun _ => "") [] []
        none ⟨"meta", false, [("charset", "utf-8")], none⟩ =
      ⟨"meta", false, [("charset", "utf-8")], none⟩ := by
  have h := C10_processTag_frame (fun _ s => "sri-" ++ s) ["sha256"] id id
    (fun _ => "") [] [] none ⟨"meta", false, [("charset", "utf-8")], none⟩
  exact ⟨(h.2.1 "charset" (by decide) (by decide)).trans (by decide),
    h.2.2 (by decide)⟩

end WSI
